/-
Verification of the waterfalls-client request pipeline, response decoding and
the compact output-reference encoding, as a shallow embedding of the Rust
sources (`src/api.rs`, `src/blocking.rs`, `src/async.rs`, `src/lib.rs`).

Machine integers are modelled as `Nat`/`Int` with explicit two's-complement
wrapping where the source performs `as i32` / `as u32` / `as u16` casts and
release-mode wrapping arithmetic.  Server interaction is modelled by the list
of responses the server would give to the successive HTTP requests of one
logical operation; an operation returns `none` when that list is exhausted
(i.e. the trace is too short to decide the call).  The external bitcoin
consensus codec and the JSON body decoder are abstracted as function
parameters, since they live outside this repository.
-/
import Mathlib

namespace Waterfalls

/-! ### Two's-complement casts -/

/-- Cast `x as i32` (also the result of wrapping i32 arithmetic): reduce `x`
into `[-2^31, 2^31)` modulo `2^32`. -/
def i32wrap (x : Int) : Int := (x + 2 ^ 31) % 2 ^ 32 - 2 ^ 31

/-- Cast `x as u32` on an i32 value: reduce into `[0, 2^32)`. -/
def u32cast (x : Int) : Nat := (x % 2 ^ 32).toNat

/-! ### The output-reference encoding `V` (src/api.rs)

`V` carries a `u32`, modelled as a `Nat`; theorems about "every `n : u32`"
quantify over `n < 2^32`. -/

/-- Rust enum `V` with variants `Undefined`, `Vin(u32)`, `Vout(u32)`,
from `src/api.rs`. -/
inductive V where
  | Undefined : V
  | Vin : Nat → V
  | Vout : Nat → V
deriving DecidableEq, Repr

/-- Method `V::is_undefined` from `src/api.rs`. -/
def V.is_undefined : V → Bool
  | .Undefined => true
  | _ => false

/-- Method `V::raw` from `src/api.rs`:
`Undefined => 0`, `Vout(n) => n as i32`, `Vin(n) => -(n as i32) - 1`
(wrapping arithmetic). -/
def V.raw : V → Int
  | .Undefined => 0
  | .Vout n => i32wrap n
  | .Vin n => i32wrap (-(i32wrap n) - 1)

/-- Method `V::from_raw` from `src/api.rs`:
`0 => Undefined`, `x > 0 => Vout(x as u32)`, `x < 0 => Vin((-x - 1) as u32)`
(wrapping arithmetic). -/
def V.from_raw (raw : Int) : V :=
  if raw = 0 then .Undefined
  else if raw > 0 then .Vout (u32cast raw)
  else .Vin (u32cast (i32wrap (-raw - 1)))

/-! ### Retry policy (src/lib.rs, src/blocking.rs, src/async.rs) -/

/-- Constant `RETRYABLE_ERROR_CODES` from `src/lib.rs`. -/
def RETRYABLE_ERROR_CODES : List Nat := [429, 500, 503]

/-- Predicate `is_status_retryable` from `src/blocking.rs` / `src/async.rs`: the status
is cast to `u16` and looked up in `RETRYABLE_ERROR_CODES`. -/
def is_status_retryable (status : Nat) : Bool :=
  RETRYABLE_ERROR_CODES.contains (status % 2 ^ 16)

/-- Predicate `is_status_ok` from `src/blocking.rs`: only `200` counts as OK. -/
def is_status_ok (status : Nat) : Bool := status == 200

/-- Predicate `is_status_not_found` from `src/blocking.rs`. -/
def is_status_not_found (status : Nat) : Bool := status == 404

/-- Predicate `StatusCode::is_success` used by `src/async.rs` (reqwest): any `2xx`. -/
def is_success (status : Nat) : Bool := 200 ≤ status && status < 300

/-- UTF-8 encoding of one character. -/
def utf8Bytes (c : Char) : List Nat :=
  let n := c.toNat
  if n < 128 then [n]
  else if n < 2048 then [192 + n / 64, 128 + n % 64]
  else if n < 65536 then [224 + n / 4096, 128 + n / 64 % 64, 128 + n % 64]
  else [240 + n / 262144, 128 + n / 4096 % 64, 128 + n / 64 % 64,
    128 + n % 64]

/-- An HTTP response: its status code and its body, as text
(`resp.as_str()` / `response.text()`); `as_bytes` is the UTF-8 encoding. -/
structure HttpResp where
  status : Nat
  body : String
deriving DecidableEq, Repr

/-- Accessor `resp.as_bytes()`: the UTF-8 bytes of the body. -/
def HttpResp.bytes (r : HttpResp) : List Nat :=
  r.body.data.flatMap utf8Bytes

/-- Constant `BASE_BACKOFF_MILLIS` from `src/lib.rs` (in milliseconds). -/
def BASE_BACKOFF_MILLIS : Nat := 256

/-- Constant `DEFAULT_MAX_RETRIES` from `src/lib.rs`. -/
def DEFAULT_MAX_RETRIES : Nat := 6

/-- The loop body of `get_with_retry` (identical in `src/blocking.rs` and
`src/async.rs`), over the list of responses the server would return to the
successive requests.  State: current `attempts` count and current `delay`
(ms).  Returns the settled response together with the list of backoff delays
slept, or `none` if the modelled trace is exhausted. -/
def getWithRetryAux (maxRetries : Nat) :
    Nat → Nat → List HttpResp → Option (HttpResp × List Nat)
  | _, _, [] => none
  | attempts, delay, resp :: rest =>
    if attempts < maxRetries && is_status_retryable resp.status then
      (getWithRetryAux maxRetries (attempts + 1) (delay * 2) rest).map
        (fun p => (p.1, delay :: p.2))
    else
      some (resp, [])

/-- Function `get_with_retry` from `src/blocking.rs` / `src/async.rs`: starts with
`attempts = 0` and `delay = BASE_BACKOFF_MILLIS`. -/
def get_with_retry (maxRetries : Nat) (resps : List HttpResp) :
    Option (HttpResp × List Nat) :=
  getWithRetryAux maxRetries 0 BASE_BACKOFF_MILLIS resps

/-! ### The error taxonomy (src/lib.rs `enum Error`)

Transaction ids and library-specific error payloads are modelled as
strings. -/

/-- Model of `enum Error` from `src/lib.rs` (the variants exercised by the modelled
paths). -/
inductive Error where
  | Minreq : String → Error
  | Reqwest : String → Error
  | HttpResponse : Nat → String → Error
  | BitcoinEncoding : Error
  | HexToBytes : Error
  | TransactionNotFound : String → Error
deriving DecidableEq, Repr

/-- Outcome of a call that may panic (the blocking hex path contains an
`unwrap`). -/
inductive PanicOr (α : Type) where
  | panic : PanicOr α
  | value : α → PanicOr α
deriving DecidableEq, Repr

/-! ### Hex decoding (`Vec::<u8>::from_hex`, external `bitcoin::hex`)

`Vec::<u8>::from_hex` fails on any non-hex-digit character and on an
odd-length string. -/

/-- Value of one hex digit (digits, then lowercase, then uppercase
letters, by code point), `none` for a non-hex character. -/
def hexDigitVal (c : Char) : Option Nat :=
  let n := c.toNat
  if 48 ≤ n ∧ n ≤ 57 then some (n - 48)
  else if 97 ≤ n ∧ n ≤ 102 then some (n - 87)
  else if 65 ≤ n ∧ n ≤ 70 then some (n - 55)
  else none

/-- Decode a list of hex characters, two per byte. -/
def hexPairs : List Char → Option (List Nat)
  | [] => some []
  | [_] => none
  | c1 :: c2 :: rest => do
    let hi ← hexDigitVal c1
    let lo ← hexDigitVal c2
    let bs ← hexPairs rest
    pure ((hi * 16 + lo) :: bs)

/-- Hex decoding (`Vec::<u8>::from_hex`) of the body text. -/
def hexToBytes (s : String) : Option (List Nat) := hexPairs s.data

/-! ### Blocking client response paths (src/blocking.rs)

Each path takes the external decoder as a parameter (`dec` for the bitcoin
consensus codec on bytes, `jdec` for the serde-JSON decoder on the body
text), the configured `max_retries`, and the modelled server trace.  The
result is `none` when the trace is exhausted. -/

/-- Model of `BlockingClient::get_opt_response`: retry loop, then `404 ↦ Ok(None)`,
non-OK status `↦ Error::HttpResponse`, otherwise consensus-decode the body
bytes. -/
def get_opt_response (dec : List Nat → Option T) (maxRetries : Nat)
    (resps : List HttpResp) : Option (Except Error (Option T)) :=
  (get_with_retry maxRetries resps).map fun p =>
    if is_status_not_found p.1.status then .ok none
    else if !is_status_ok p.1.status then
      .error (.HttpResponse p.1.status p.1.body)
    else
      match dec p.1.bytes with
      | some t => .ok (some t)
      | none => .error .BitcoinEncoding

/-- Model of `BlockingClient::get_response_hex`: retry loop, non-OK status
`↦ Error::HttpResponse`, then `Vec::from_hex(hex_str).unwrap()` — a panic on
invalid hex — then consensus-decode. -/
def get_response_hex (dec : List Nat → Option T) (maxRetries : Nat)
    (resps : List HttpResp) : Option (PanicOr (Except Error T)) :=
  (get_with_retry maxRetries resps).map fun p =>
    if !is_status_ok p.1.status then
      .value (.error (.HttpResponse p.1.status p.1.body))
    else
      match hexToBytes p.1.body with
      | none => .panic
      | some bytes =>
        match dec bytes with
        | some t => .value (.ok t)
        | none => .value (.error .BitcoinEncoding)

/-- Model of `BlockingClient::get_response_str`: retry loop, non-OK status
`↦ Error::HttpResponse`, otherwise the body text. -/
def get_response_str (maxRetries : Nat) (resps : List HttpResp) :
    Option (Except Error String) :=
  (get_with_retry maxRetries resps).map fun p =>
    if !is_status_ok p.1.status then
      .error (.HttpResponse p.1.status p.1.body)
    else .ok p.1.body

/-- Model of `BlockingClient::get_response_json_with_query`: builds its own request
and sends it once — no retry loop — then non-OK status
`↦ Error::HttpResponse`, otherwise JSON-decode (`resp.json()` failure is a
`minreq` error). -/
def get_response_json_with_query (jdec : String → Option T)
    (_maxRetries : Nat) (resps : List HttpResp) :
    Option (Except Error T) :=
  resps.head?.map fun resp =>
    if !is_status_ok resp.status then
      .error (.HttpResponse resp.status resp.body)
    else
      match jdec resp.body with
      | some t => .ok t
      | none => .error (.Minreq "json")

/-- Model of `BlockingClient::broadcast`: a single POST request — no retry loop —
non-OK status `↦ Error::HttpResponse`, otherwise `Ok(())`. -/
def broadcast (_maxRetries : Nat) (resps : List HttpResp) :
    Option (Except Error Unit) :=
  resps.head?.map fun resp =>
    if !is_status_ok resp.status then
      .error (.HttpResponse resp.status resp.body)
    else .ok ()

/-- Model of `BlockingClient::get_tx`: `get_opt_response` on `/tx/{txid}/raw`. -/
def get_tx (dec : List Nat → Option T) (maxRetries : Nat)
    (resps : List HttpResp) : Option (Except Error (Option T)) :=
  get_opt_response dec maxRetries resps

/-- Model of `BlockingClient::get_tx_no_opt`: `Ok(Some tx) ↦ Ok tx`,
`Ok(None) ↦ Err(TransactionNotFound txid)`, `Err e ↦ Err e`. -/
def get_tx_no_opt (dec : List Nat → Option T) (txid : String)
    (maxRetries : Nat) (resps : List HttpResp) : Option (Except Error T) :=
  (get_tx dec maxRetries resps).map fun r =>
    match r with
    | .ok (some tx) => .ok tx
    | .ok none => .error (.TransactionNotFound txid)
    | .error e => .error e

/-! ### Async client response paths (src/async.rs)

The async client shares `get_with_retry` (its loop is textually identical)
but checks `response.status().is_success()` (any 2xx) instead of
`is_status_ok`, and its hex path propagates the hex error as
`Error::HexToBytes` instead of unwrapping. -/

/-- Model of `AsyncClient::get_response`: retry loop, non-success status
`↦ Error::HttpResponse`, otherwise consensus-decode the body bytes. -/
def async_get_response (dec : List Nat → Option T) (maxRetries : Nat)
    (resps : List HttpResp) : Option (Except Error T) :=
  (get_with_retry maxRetries resps).map fun p =>
    if !is_success p.1.status then
      .error (.HttpResponse p.1.status p.1.body)
    else
      match dec p.1.bytes with
      | some t => .ok t
      | none => .error .BitcoinEncoding

/-- Model of `AsyncClient::get_opt_response`: layered on `get_response`;
`Err(HttpResponse{status: 404, ..}) ↦ Ok(None)`. -/
def async_get_opt_response (dec : List Nat → Option T) (maxRetries : Nat)
    (resps : List HttpResp) : Option (Except Error (Option T)) :=
  (async_get_response dec maxRetries resps).map fun r =>
    match r with
    | .ok t => .ok (some t)
    | .error (.HttpResponse 404 _) => .ok none
    | .error e => .error e

/-- Model of `AsyncClient::get_response_hex`: retry loop, non-success status
`↦ Error::HttpResponse`, then `Vec::from_hex(&hex_str)?`
(`↦ Error::HexToBytes` on invalid hex), then consensus-decode. -/
def async_get_response_hex (dec : List Nat → Option T) (maxRetries : Nat)
    (resps : List HttpResp) : Option (Except Error T) :=
  (get_with_retry maxRetries resps).map fun p =>
    if !is_success p.1.status then
      .error (.HttpResponse p.1.status p.1.body)
    else
      match hexToBytes p.1.body with
      | none => .error .HexToBytes
      | some bytes =>
        match dec bytes with
        | some t => .ok t
        | none => .error .BitcoinEncoding

/-- Model of `AsyncClient::get_response_text`: retry loop, non-success status
`↦ Error::HttpResponse`, otherwise the body text. -/
def async_get_response_text (maxRetries : Nat) (resps : List HttpResp) :
    Option (Except Error String) :=
  (get_with_retry maxRetries resps).map fun p =>
    if !is_success p.1.status then
      .error (.HttpResponse p.1.status p.1.body)
    else .ok p.1.body

/-- Model of `AsyncClient::get_response_json_with_query`: sends once — no retry loop
— non-success status `↦ Error::HttpResponse`, otherwise JSON-decode
(`response.json()` failure is `Error::Reqwest`). -/
def async_get_response_json_with_query (jdec : String → Option T)
    (_maxRetries : Nat) (resps : List HttpResp) :
    Option (Except Error T) :=
  resps.head?.map fun resp =>
    if !is_success resp.status then
      .error (.HttpResponse resp.status resp.body)
    else
      match jdec resp.body with
      | some t => .ok t
      | none => .error (.Reqwest "json")

/-- Model of `AsyncClient::post_request_hex` (used by `broadcast`): a single POST —
no retry loop — non-success status `↦ Error::HttpResponse`, otherwise
`Ok(())`. -/
def async_broadcast (_maxRetries : Nat) (resps : List HttpResp) :
    Option (Except Error Unit) :=
  resps.head?.map fun resp =>
    if !is_success resp.status then
      .error (.HttpResponse resp.status resp.body)
    else .ok ()

/-- Model of `AsyncClient::get_tx` / `get_tx_no_opt`, layered as in the blocking
client. -/
def async_get_tx_no_opt (dec : List Nat → Option T) (txid : String)
    (maxRetries : Nat) (resps : List HttpResp) : Option (Except Error T) :=
  (async_get_opt_response dec maxRetries resps).map fun r =>
    match r with
    | .ok (some tx) => .ok tx
    | .ok none => .error (.TransactionNotFound txid)
    | .error e => .error e

/-! ### Query-string construction (src/blocking.rs
`get_response_json_with_query`, `waterfalls_version`)

`urlencoding::encode` percent-encodes every byte of the UTF-8 encoding
except ASCII alphanumerics and `-`, `_`, `.`, `~`, with uppercase hex. -/

/-- Uppercase hex digit of a value below 16. -/
def hexDigitUpper (n : Nat) : Char :=
  if n < 10 then Char.ofNat (48 + n) else Char.ofNat (55 + n)

/-- Percent-encoding (three characters) of one byte. -/
def percentByte (b : Nat) : List Char :=
  ['%', hexDigitUpper (b / 16), hexDigitUpper (b % 16)]

/-- Characters `urlencoding::encode` leaves as-is. -/
def isUrlUnreserved (c : Char) : Bool :=
  ('A' ≤ c && c ≤ 'Z') || ('a' ≤ c && c ≤ 'z') ||
    ('0' ≤ c && c ≤ '9') || c == '-' || c == '_' || c == '.' || c == '~'

/-- Model of `urlencoding::encode`. -/
def urlencode (s : String) : String :=
  ⟨s.data.flatMap fun c =>
    if isUrlUnreserved c then [c] else (utf8Bytes c).flatMap percentByte⟩

/-- One `key=value` query fragment, both sides URL-encoded. -/
def encodeParam (p : String × String) : String :=
  urlencode p.1 ++ "=" ++ urlencode p.2

/-- The joined fragments: the source loop pushes the separator before
every fragment but the first. -/
def joinParams : List (String × String) → String
  | [] => ""
  | [p] => encodeParam p
  | p :: q :: rest => encodeParam p ++ "&" ++ joinParams (q :: rest)

/-- The query string appended to the URL: empty, or `?` plus the joined
fragments. -/
def queryString (params : List (String × String)) : String :=
  if params.isEmpty then "" else "?" ++ joinParams params

/-- The query parameters built by `waterfalls_version` (identical in
`src/blocking.rs` and `src/async.rs`): `descriptor` and `utxo_only` are
always pushed; `page` and `to_index` only when `Some`. -/
def waterfalls_version_params (descriptor : String) (page : Option Nat)
    (to_index : Option Nat) (utxo_only : Bool) : List (String × String) :=
  [("descriptor", descriptor),
    ("utxo_only", if utxo_only then "true" else "false")] ++
  (match page with
    | some p => [("page", toString p)]
    | none => []) ++
  (match to_index with
    | some t => [("to_index", toString t)]
    | none => [])

/-- The request path built by `waterfalls_version` with Rust format on
the version number. -/
def waterfalls_version_path (version : Nat) : String :=
  "/v" ++ toString version ++ "/waterfalls"

/-! ### The waterfall response model (src/api.rs)

`BTreeMap<String, Vec<Vec<TxSeen>>>` is modelled as an association list
kept sorted by key; `btreeInsert` is the map's `insert` and `btreeOfList`
is what serde's map deserialization does with the wire-order object
entries.  Hashes and txids are modelled as strings. -/

/-- Model of `struct TxSeen` from `src/api.rs`. -/
structure TxSeen where
  txid : String
  height : Nat
  block_hash : Option String
  block_timestamp : Option Nat
  v : V
deriving DecidableEq, Repr

/-- Model of `struct BlockMeta` from `src/api.rs`. -/
structure BlockMeta where
  b : String
  t : Nat
  h : Nat
deriving DecidableEq, Repr

/-- Lexicographic strict order on character lists by code point. -/
def charsLt : List Char → List Char → Bool
  | _, [] => false
  | [], _ :: _ => true
  | a :: as, b :: bs =>
    if a.toNat < b.toNat then true
    else if b.toNat < a.toNat then false
    else charsLt as bs

/-- Rust's `Ord for String` (byte-wise lexicographic on the UTF-8 bytes;
equivalently, code-point lexicographic, since UTF-8 preserves code-point
order byte-wise). -/
def strLt (a b : String) : Bool := charsLt a.data b.data

/-- Model of `BTreeMap::insert` on a key-sorted association list. -/
def btreeInsert (k : String) (v : α) :
    List (String × α) → List (String × α)
  | [] => [(k, v)]
  | (k', v') :: rest =>
    if strLt k k' then (k, v) :: (k', v') :: rest
    else if k = k' then (k, v) :: rest
    else (k', v') :: btreeInsert k v rest

/-- serde's map deserialization into a `BTreeMap`: insert the wire-order
entries one by one (a later duplicate key overwrites). -/
def btreeOfList (l : List (String × α)) : List (String × α) :=
  l.foldl (fun acc p => btreeInsert p.1 p.2 acc) []

/-- Model of `struct WaterfallResponse` from `src/api.rs`. -/
structure WaterfallResponse where
  txs_seen : List (String × List (List TxSeen))
  page : Nat
  tip : Option String
  tip_meta : Option BlockMeta
deriving DecidableEq, Repr

/-- Method `WaterfallResponse::is_empty` from `src/api.rs`:
`txs_seen.iter().flat_map(|(_, v)| v.iter()).all(|a| a.is_empty())`. -/
def WaterfallResponse.is_empty (r : WaterfallResponse) : Bool :=
  (r.txs_seen.flatMap fun kv => kv.2).all fun a => a.isEmpty

/-! ### JSON wire form of `TxSeen` (src/api.rs serde attributes)

A small JSON value type; objects keep their field order.  `TxSeen`
serializes its fields in declaration order, skipping `block_hash` /
`block_timestamp` when `None` and `v` when `V::is_undefined` (with
`default` on deserialization); `V` (de)serializes as a bare i32 via
`raw` / `from_raw`. -/

/-- A JSON scalar value, the only field shapes the modelled `TxSeen` wire
form needs (its fields are numbers and strings); a JSON object is
represented directly by its ordered field list. -/
inductive Jval where
  | jnum : Int → Jval
  | jstr : String → Jval

/-- Field lookup in a JSON object's field list. -/
def jLookup (k : String) (fields : List (String × Jval)) : Option Jval :=
  (fields.find? fun p => p.1 == k).map Prod.snd

/-- Deserialize a `u32` field: a non-negative JSON number below `2^32`. -/
def asU32 : Jval → Option Nat
  | .jnum (Int.ofNat n) => if n < 4294967296 then some n else none
  | _ => none

/-- Deserialize an `i32` field (how `V` is read from the wire): a JSON
number in `[-2^31, 2^31)`. -/
def asI32 : Jval → Option Int
  | .jnum (Int.ofNat n) =>
    if n < 2147483648 then some (Int.ofNat n) else none
  | .jnum (Int.negSucc n) =>
    if n < 2147483648 then some (Int.negSucc n) else none
  | _ => none

/-- Deserialize a string field. -/
def asStr : Jval → Option String
  | .jstr s => some s
  | _ => none

/-- serde serialization of `TxSeen` to a JSON object's field list. -/
def serializeTxSeen (ts : TxSeen) : List (String × Jval) :=
  [("txid", .jstr ts.txid), ("height", .jnum ts.height)] ++
  (match ts.block_hash with
    | some h => [("block_hash", Jval.jstr h)]
    | none => []) ++
  (match ts.block_timestamp with
    | some t => [("block_timestamp", Jval.jnum t)]
    | none => []) ++
  (if ts.v.is_undefined then [] else [("v", Jval.jnum ts.v.raw)])

/-- An optional struct field: absent on the wire means `None`, present
must decode. -/
def optField (f : Jval → Option β) : Option Jval → Option (Option β)
  | none => some none
  | some j => (f j).map some

/-- The `v` field: absent on the wire takes the `Default` value
`V::Undefined`; present deserializes as a bare i32 through `from_raw`. -/
def vField : Option Jval → Option V
  | none => some V.Undefined
  | some j => (asI32 j).map V.from_raw

/-- serde deserialization of `TxSeen` from a JSON object's field list:
`txid` and `height` are required, `block_hash` and `block_timestamp` are
optional, and a missing `v` takes the `Default` value `V::Undefined`. -/
def deserializeTxSeen (fields : List (String × Jval)) : Option TxSeen :=
  (jLookup "txid" fields >>= asStr).bind fun txid =>
  (jLookup "height" fields >>= asU32).bind fun height =>
  (optField asStr (jLookup "block_hash" fields)).bind fun block_hash =>
  (optField asU32 (jLookup "block_timestamp" fields)).bind
    fun block_timestamp =>
  (vField (jLookup "v" fields)).bind fun v =>
  some ⟨txid, height, block_hash, block_timestamp, v⟩

/-- Decidable equality of call outcomes, for evaluating the models on
concrete inputs. -/
instance {ε α : Type} [DecidableEq ε] [DecidableEq α] :
    DecidableEq (Except ε α) := fun x y =>
  match x, y with
  | .ok a, .ok b =>
    if h : a = b then .isTrue (by rw [h]) else .isFalse (by simp [h])
  | .error e, .error f =>
    if h : e = f then .isTrue (by rw [h]) else .isFalse (by simp [h])
  | .ok _, .error _ => .isFalse (by simp)
  | .error _, .ok _ => .isFalse (by simp)

/-! ## Helper lemmas -/

theorem i32wrap_eq_self {x : Int} (h1 : -2 ^ 31 ≤ x) (h2 : x < 2 ^ 31) :
    i32wrap x = x := by
  unfold i32wrap
  omega

theorem u32cast_natCast {n : Nat} (h : n < 2 ^ 32) : u32cast (n : Int) = n := by
  unfold u32cast
  omega

theorem geom_cons (d n : Nat) :
    d :: (List.range n).map (fun i => d * 2 * 2 ^ i) =
      (List.range (n + 1)).map (fun i => d * 2 ^ i) := by
  rw [List.range_succ_eq_map, List.map_cons, List.map_map]
  simp only [pow_zero, Nat.mul_one, List.cons.injEq, true_and]
  refine List.map_congr_left ?_
  intro i _
  simp only [Function.comp_apply, pow_succ]
  ring

/-! ## C1: the `V` encoding round-trip -/

/-- C1 (counterexample): the round-trip fails on `u32` values that do not
fit in an `i32`: `Vin(2^31)` encodes (with the source's `as i32` cast and
wrapping arithmetic) to raw `2^31 - 1 > 0`, which decodes to
`Vout(2^31 - 1)`, not `Vin(2^31)`. -/
theorem v_roundtrip_counterexample :
    V.from_raw (V.raw (V.Vin 2147483648)) = V.Vout 2147483647 ∧
    V.Vout 2147483647 ≠ V.Vin 2147483648 := by
  decide

/-- C1 (amended): the round-trip holds for every index that fits in an
`i32`, i.e. `n < 2^31`: `decode(encode(VoutIndex(n))) = VoutIndex(n)` for
`0 < n < 2^31`, `decode(encode(VinIndex(n))) = VinIndex(n)` for
`n < 2^31`, `decode(encode(Undefined)) = Undefined`; and the boundary
values hold: `encode(VinIndex(0)) = -1`, `encode(VinIndex(3)) = -4`,
`decode(-4) = VinIndex(3)`, `decode(0) = Undefined`,
`decode(5) = VoutIndex(5)`. -/
theorem v_roundtrip :
    (∀ n : Nat, 0 < n → n < 2 ^ 31 →
      V.from_raw (V.raw (V.Vout n)) = V.Vout n) ∧
    (∀ n : Nat, n < 2 ^ 31 → V.from_raw (V.raw (V.Vin n)) = V.Vin n) ∧
    V.from_raw (V.raw V.Undefined) = V.Undefined ∧
    V.raw (V.Vin 0) = -1 ∧ V.raw (V.Vin 3) = -4 ∧
    V.from_raw (-4) = V.Vin 3 ∧ V.from_raw 0 = V.Undefined ∧
    V.from_raw 5 = V.Vout 5 := by
  refine ⟨?_, ?_, by decide, by decide, by decide, by decide, by decide,
    by decide⟩
  · intro n h0 h31
    have hn : i32wrap (n : Int) = (n : Int) :=
      i32wrap_eq_self (by omega) (by omega)
    simp only [V.raw, V.from_raw, hn]
    rw [if_neg (by omega), if_pos (by omega), u32cast_natCast (by omega)]
  · intro n h31
    have h1 : i32wrap (n : Int) = (n : Int) :=
      i32wrap_eq_self (by omega) (by omega)
    have h2 : i32wrap (-(n : Int) - 1) = -(n : Int) - 1 :=
      i32wrap_eq_self (by omega) (by omega)
    simp only [V.raw, V.from_raw, h1, h2]
    rw [if_neg (by omega), if_neg (by omega)]
    have h3 : -(-(n : Int) - 1) - 1 = (n : Int) := by ring
    rw [h3, h1, u32cast_natCast (by omega)]

/-- C1 witness: the amended round-trip at `n = 7`. -/
theorem v_roundtrip_witness :
    V.from_raw (V.raw (V.Vout 7)) = V.Vout 7 ∧
    V.from_raw (V.raw (V.Vin 7)) = V.Vin 7 :=
  ⟨v_roundtrip.1 7 (by decide) (by decide), v_roundtrip.2.1 7 (by decide)⟩

/-! ## C2: the retry/backoff policy -/

/-- A placeholder response for out-of-range list indexing. -/
def dfltResp : HttpResp := ⟨0, ""⟩

/-- Full characterization of the retry loop body: from state
`(attempts = a, delay = d)`, the settled response is the first one that is
not retried, each retried position consumed one attempt below the maximum
on a retryable status, and the recorded delays double from `d`. -/
theorem getWithRetryAux_spec (m : Nat) :
    ∀ (rs : List HttpResp) (a d : Nat) (s : HttpResp) (ds : List Nat),
      getWithRetryAux m a d rs = some (s, ds) →
      ds = (List.range ds.length).map (fun i => d * 2 ^ i) ∧
      ds.length < rs.length ∧
      (∀ i, i < ds.length →
        a + i < m ∧ is_status_retryable (rs.getD i dfltResp).status = true) ∧
      ¬(a + ds.length < m ∧
        is_status_retryable (rs.getD ds.length dfltResp).status = true) ∧
      s = rs.getD ds.length dfltResp := by
  intro rs
  induction rs with
  | nil => intro a d s ds h; simp [getWithRetryAux] at h
  | cons r rest ih =>
    intro a d s ds h
    rw [getWithRetryAux] at h
    by_cases hc : a < m ∧ is_status_retryable r.status = true
    · rw [if_pos (by simp [hc.1, hc.2])] at h
      cases haux : getWithRetryAux m (a + 1) (d * 2) rest with
      | none => rw [haux] at h; simp at h
      | some p =>
        rw [haux] at h
        simp only [Option.map_some', Option.some.injEq, Prod.mk.injEq] at h
        obtain ⟨hs, hds⟩ := h
        obtain ⟨hgeo, hlen, hall, hstop, hsettle⟩ :=
          ih (a + 1) (d * 2) p.1 p.2 haux
        subst hds
        refine ⟨?_, by simp only [List.length_cons]; omega, ?_, ?_, ?_⟩
        · simp only [List.length_cons]
          rw [← geom_cons, ← hgeo]
        · intro i hi
          cases i with
          | zero => exact ⟨hc.1, hc.2⟩
          | succ j =>
            simp only [List.length_cons, Nat.succ_lt_succ_iff] at hi
            obtain ⟨h1, h2⟩ := hall j hi
            exact ⟨by omega, by simpa using h2⟩
        · simp only [List.length_cons, List.getD_cons_succ]
          intro hcontr
          exact hstop ⟨by omega, hcontr.2⟩
        · subst hs
          simp [hsettle]
    · rw [if_neg (by simpa using fun h1 h2 => hc ⟨h1, h2⟩)] at h
      simp only [Option.some.injEq, Prod.mk.injEq] at h
      obtain ⟨hs, hds⟩ := h
      subst hs; subst hds
      refine ⟨by simp, by simp, by simp, ?_, by simp⟩
      simpa using fun h1 h2 => hc ⟨h1, h2⟩

/-- C2: (a) a settled call's delays are exactly `256·2^i` for
`i = 0, 1, …` (first delay 256 ms, each subsequent delay double); (b) a
request is re-sent iff the attempt count is below `max_retries` and the
status is retryable, and the settled response is the first non-retried
one; (c) the retryable statuses are exactly `{429, 500, 503}`; (d) a
non-retryable response is returned immediately with no delay; (e) with
`max_retries = 0` a single `503` is surfaced as
`HttpResponseError{status: 503, ...}` with zero delays. -/
theorem retry_backoff_spec :
    (∀ (m : Nat) (rs : List HttpResp) (s : HttpResp) (ds : List Nat),
      get_with_retry m rs = some (s, ds) →
      ds = (List.range ds.length).map (fun i => 256 * 2 ^ i) ∧
      ds.length < rs.length ∧
      (∀ i, i < ds.length →
        i < m ∧ is_status_retryable (rs.getD i dfltResp).status = true) ∧
      ¬(ds.length < m ∧
        is_status_retryable (rs.getD ds.length dfltResp).status = true) ∧
      s = rs.getD ds.length dfltResp) ∧
    (∀ status : Nat, status < 2 ^ 16 →
      (is_status_retryable status = true ↔
        status = 429 ∨ status = 500 ∨ status = 503)) ∧
    (∀ (m : Nat) (r : HttpResp) (rest : List HttpResp),
      is_status_retryable r.status = false →
      get_with_retry m (r :: rest) = some (r, [])) ∧
    get_with_retry 0 [⟨503, "unavailable"⟩] =
      some (⟨503, "unavailable"⟩, []) ∧
    get_response_str 0 [⟨503, "unavailable"⟩] =
      some (.error (.HttpResponse 503 "unavailable")) := by
  refine ⟨?_, ?_, ?_, by decide, by rfl⟩
  · intro m rs s ds h
    obtain ⟨hgeo, hlen, hall, hstop, hsettle⟩ :=
      getWithRetryAux_spec m rs 0 BASE_BACKOFF_MILLIS s ds h
    exact ⟨hgeo, hlen, fun i hi => by simpa using hall i hi,
      by simpa using hstop, hsettle⟩
  · intro status hlt
    simp only [is_status_retryable, RETRYABLE_ERROR_CODES,
      List.contains_cons, List.contains_nil, Bool.or_false,
      Bool.or_eq_true, beq_iff_eq]
    omega
  · intro m r rest hr
    rw [get_with_retry, getWithRetryAux, if_neg (by simp [hr])]

/-- C2 witness: `max_retries = 6` and three consecutive `503`s followed by
a `200`: the call settles on the `200` after exactly the delays
`[256, 512, 1024]`, which match the doubling formula; and `429` is
retryable. -/
theorem retry_backoff_spec_witness :
    ([256, 512, 1024] : List Nat) =
      (List.range 3).map (fun i => 256 * 2 ^ i) ∧
    is_status_retryable 429 = true := by
  constructor
  · have h := (retry_backoff_spec.1 6
      [⟨503, "a"⟩, ⟨503, "b"⟩, ⟨503, "c"⟩, ⟨200, "ok"⟩] ⟨200, "ok"⟩
      [256, 512, 1024] (by decide)).1
    simpa using h
  · exact (retry_backoff_spec.2.1 429 (by decide)).mpr (Or.inl rfl)

/-! ## C3: which operations the retry policy covers -/

/-- C3 (counterexample): the waterfalls lookups go through
`get_response_json_with_query`, which sends a single request and does NOT
apply the retry policy: with `max_retries = 6` and a retryable `503`
followed by a `200`, the JSON-with-query path surfaces the `503` as an
error, while the retry wrapper used by the other GET paths would have
retried and settled on the `200`. -/
theorem retry_scope_counterexample :
    get_response_json_with_query (fun _ => some 0) 6
        [⟨503, "overloaded"⟩, ⟨200, "ok"⟩] =
      some (.error (.HttpResponse 503 "overloaded")) ∧
    get_with_retry 6 [⟨503, "overloaded"⟩, ⟨200, "ok"⟩] =
      some (⟨200, "ok"⟩, [256]) := by
  constructor
  · rfl
  · decide

/-- C3 (amended): the retry policy is applied to the GET operations routed
through `get_with_retry` (binary, hex and text envelope paths), but NOT to
`get_response_json_with_query` (the waterfalls descriptor/address lookups),
which — like the POST broadcast — makes exactly one HTTP attempt and
returns that attempt's result as-is, regardless of `max_retries` and of any
further server responses. -/
theorem retry_scope :
    (∀ (T : Type) (jdec : String → Option T) (m m' : Nat) (r : HttpResp)
        (rest rest' : List HttpResp),
      get_response_json_with_query jdec m (r :: rest) =
        get_response_json_with_query jdec m' (r :: rest')) ∧
    (∀ (m m' : Nat) (r : HttpResp) (rest rest' : List HttpResp),
      broadcast m (r :: rest) = broadcast m' (r :: rest')) ∧
    (∀ (m m' : Nat) (r : HttpResp) (rest rest' : List HttpResp),
      async_broadcast m (r :: rest) = async_broadcast m' (r :: rest')) ∧
    (∀ (m : Nat) (r : HttpResp) (rest : List HttpResp) (s : HttpResp)
        (ds : List Nat),
      0 < m → is_status_retryable r.status = true →
      get_with_retry m (r :: rest) = some (s, ds) → ds ≠ []) := by
  refine ⟨fun _ _ _ _ _ _ _ => rfl, fun _ _ _ _ _ => rfl,
    fun _ _ _ _ _ => rfl, ?_⟩
  intro m r rest s ds h0 h1 h
  rw [get_with_retry, getWithRetryAux, if_pos (by simp [h0, h1])] at h
  cases haux : getWithRetryAux m (0 + 1) (BASE_BACKOFF_MILLIS * 2) rest with
  | none => rw [haux] at h; simp at h
  | some p =>
    rw [haux] at h
    simp only [Option.map_some', Option.some.injEq, Prod.mk.injEq] at h
    rw [← h.2]
    simp

/-- C3 witness: a concrete instance of each part with hypotheses — the
JSON-with-query path ignores `max_retries` and the tail of the trace, and
the retry wrapper does sleep at least once on a leading retryable
response. -/
theorem retry_scope_witness :
    get_response_json_with_query (fun _ => some 0) 0
        [⟨200, "x"⟩, ⟨503, "y"⟩] =
      get_response_json_with_query (fun _ => some 0) 9 [⟨200, "x"⟩] ∧
    ([256] : List Nat) ≠ [] := by
  constructor
  · exact retry_scope.1 Nat (fun _ => some 0) 0 9 ⟨200, "x"⟩
      [⟨503, "y"⟩] []
  · exact retry_scope.2.2.2 6 ⟨503, "overloaded"⟩ [⟨200, "ok"⟩]
      ⟨200, "ok"⟩ [256] (by decide) (by decide) (by decide)

/-! ## C4: blocking/async observational agreement -/

/-- C4 (counterexample): the two clients do NOT treat the same statuses as
successful: the blocking client's `is_status_ok` accepts only `200`, while
the async client accepts every `2xx`.  On a `201` response whose body
decodes, the async optional-get succeeds while the blocking optional-get
surfaces `HttpResponseError{status: 201}`. -/
theorem client_agreement_counterexample :
    async_get_opt_response (fun _ => some 0) 0 [⟨201, "created"⟩] =
      some (.ok (some 0)) ∧
    get_opt_response (fun _ => some 0) 0 [⟨201, "created"⟩] =
      some (.error (.HttpResponse 201 "created")) ∧
    async_get_opt_response (fun _ => some 0) 0 [⟨201, "created"⟩] ≠
      get_opt_response (fun _ => some 0) 0 [⟨201, "created"⟩] := by
  refine ⟨rfl, rfl, by decide⟩

/-- C4 (amended): the blocking client succeeds exactly on status `200`,
the async client on any `2xx`; whenever the settled response's status is
`200` or not `2xx` the two clients produce identical results on each
operation (on the hex path: whenever the body is valid hex, since the
blocking client panics there instead of erroring; on the JSON path:
whenever the body decodes, since the two wrap decode failures in
client-specific transport variants), and both surface a settled non-2xx
status other than the optional-get's `404` as
`HttpResponseError{status, message: body}`. -/
theorem client_agreement :
    (∀ (T : Type) (dec : List Nat → Option T) (m : Nat)
        (resps : List HttpResp) (s : HttpResp) (ds : List Nat),
      get_with_retry m resps = some (s, ds) →
      s.status = 200 ∨ is_success s.status = false →
      (get_opt_response dec m resps = async_get_opt_response dec m resps ∧
       get_response_str m resps = async_get_response_text m resps ∧
       (hexToBytes s.body ≠ none →
         get_response_hex dec m resps =
           (async_get_response_hex dec m resps).map PanicOr.value) ∧
       (is_success s.status = false → s.status ≠ 404 →
         get_opt_response dec m resps =
           some (.error (.HttpResponse s.status s.body)) ∧
         async_get_opt_response dec m resps =
           some (.error (.HttpResponse s.status s.body))))) ∧
    (∀ (T : Type) (jdec : String → Option T) (m : Nat) (r : HttpResp)
        (rest : List HttpResp),
      r.status = 200 ∨ is_success r.status = false →
      (broadcast m (r :: rest) = async_broadcast m (r :: rest) ∧
       (jdec r.body ≠ none →
         get_response_json_with_query jdec m (r :: rest) =
           async_get_response_json_with_query jdec m (r :: rest)))) := by
  constructor
  · intro T dec m resps s ds h hcond
    rcases hcond with h200 | hns
    · have hok : is_status_ok s.status = true := by simp [is_status_ok, h200]
      have hsu : is_success s.status = true := by simp [is_success, h200]
      have hnf : is_status_not_found s.status = false := by
        simp [is_status_not_found, h200]
      refine ⟨?_, ?_, ?_, ?_⟩
      · simp only [get_opt_response, async_get_opt_response,
          async_get_response, h, Option.map_some', hok, hsu, hnf,
          Bool.not_true, Bool.false_eq_true, if_false, if_true]
        cases hdec : dec s.bytes <;> simp [hdec]
      · simp only [get_response_str, async_get_response_text, h,
          Option.map_some', hok, hsu, Bool.not_true, Bool.false_eq_true,
          if_false]
      · intro hhex
        cases hbytes : hexToBytes s.body with
        | none => exact absurd hbytes hhex
        | some bytes =>
          simp only [get_response_hex, async_get_response_hex, h,
            Option.map_some', hok, hsu, Bool.not_true, Bool.false_eq_true,
            if_false, hbytes]
          cases hdec : dec bytes <;> simp [hdec]
      · intro hf _
        rw [hsu] at hf
        exact absurd hf (by simp)
    · have hne200 : s.status ≠ 200 := by
        intro e
        rw [e] at hns
        simp [is_success] at hns
      have hok : is_status_ok s.status = false := by
        simp [is_status_ok, hne200]
      by_cases h404 : s.status = 404
      · have hnf : is_status_not_found s.status = true := by
          simp [is_status_not_found, h404]
        refine ⟨?_, ?_, ?_, ?_⟩
        · simp only [get_opt_response, async_get_opt_response,
            async_get_response, h, Option.map_some', h404]
          simp [is_status_not_found, is_success]
        · simp only [get_response_str, async_get_response_text, h,
            Option.map_some', hok, hns, Bool.not_false, Bool.false_eq_true,
            if_false, if_true]
        · intro _
          simp only [get_response_hex, async_get_response_hex, h,
            Option.map_some', hok, hns, Bool.not_false, Bool.false_eq_true,
            if_false, if_true]
        · intro _ hne
          exact absurd h404 hne
      · have hnf : is_status_not_found s.status = false := by
          simp [is_status_not_found, h404]
        have hasync : async_get_opt_response dec m resps =
            some (.error (.HttpResponse s.status s.body)) := by
          simp only [async_get_opt_response, async_get_response, h,
            Option.map_some', hns, Bool.not_false, Bool.false_eq_true,
            if_false, if_true]
          split <;> simp_all
        have hblock : get_opt_response dec m resps =
            some (.error (.HttpResponse s.status s.body)) := by
          simp only [get_opt_response, h, Option.map_some', hnf, hok,
            Bool.not_false, Bool.false_eq_true, if_false, if_true]
        refine ⟨by rw [hblock, hasync], ?_, ?_, fun _ _ => ⟨hblock, hasync⟩⟩
        · simp only [get_response_str, async_get_response_text, h,
            Option.map_some', hok, hns, Bool.not_false, Bool.false_eq_true,
            if_false, if_true]
        · intro _
          simp only [get_response_hex, async_get_response_hex, h,
            Option.map_some', hok, hns, Bool.not_false, Bool.false_eq_true,
            if_false, if_true]
  · intro T jdec m r rest hcond
    have hokq : is_status_ok r.status = true ∨
        (is_status_ok r.status = false ∧ is_success r.status = false) := by
      rcases hcond with h200 | hns
      · exact Or.inl (by simp [is_status_ok, h200])
      · refine Or.inr ⟨?_, hns⟩
        have : r.status ≠ 200 := by
          intro e
          rw [e] at hns
          simp [is_success] at hns
        simp [is_status_ok, this]
    rcases hokq with hok | ⟨hok, hns⟩
    · have hsu : is_success r.status = true := by
        simp only [is_status_ok, beq_iff_eq] at hok
        simp [is_success, hok]
      constructor
      · simp only [broadcast, async_broadcast, List.head?_cons,
          Option.map_some', hok, hsu, Bool.not_true, Bool.false_eq_true,
          if_false]
      · intro hj
        cases hjd : jdec r.body with
        | none => exact absurd hjd hj
        | some t =>
          simp only [get_response_json_with_query,
            async_get_response_json_with_query, List.head?_cons,
            Option.map_some', hok, hsu, Bool.not_true, Bool.false_eq_true,
            if_false, hjd]
    · constructor
      · simp only [broadcast, async_broadcast, List.head?_cons,
          Option.map_some', hok, hns, Bool.not_false, Bool.false_eq_true,
          if_false, if_true]
      · intro _
        simp only [get_response_json_with_query,
          async_get_response_json_with_query, List.head?_cons,
          Option.map_some', hok, hns, Bool.not_false, Bool.false_eq_true,
          if_false, if_true]

/-- C4 witness: the agreement at a settled `200` response and at a settled
`500` response. -/
theorem client_agreement_witness :
    get_opt_response (fun _ => some 0) 0 [⟨200, "00"⟩] =
      async_get_opt_response (fun _ => some 0) 0 [⟨200, "00"⟩] ∧
    get_opt_response (fun _ => some 0) 0 [⟨500, "oops"⟩] =
      some (.error (.HttpResponse 500 "oops")) := by
  constructor
  · exact (client_agreement.1 Nat (fun _ => some 0) 0 [⟨200, "00"⟩]
      ⟨200, "00"⟩ [] (by decide) (Or.inl rfl)).1
  · exact ((client_agreement.1 Nat (fun _ => some 0) 0 [⟨500, "oops"⟩]
      ⟨500, "oops"⟩ [] (by decide) (Or.inr (by decide))).2.2.2
      (by decide) (by decide)).1

/-! ## C5: hex-envelope error handling -/

/-- C5 (code bug): on a success-status response whose body is not valid
hex, the async client returns `Error::HexToBytes` as the claim states, but
the blocking client's `get_response_hex` calls
`Vec::from_hex(hex_str).unwrap()` and PANICS instead of returning a
`HexError`; when the hex is valid but the decoded bytes are malformed,
both return the `CodecError` (`Error::BitcoinEncoding`). -/
theorem hex_envelope_divergence :
    get_response_hex (fun _ => some 0) 0 [⟨200, "zz"⟩] = some .panic ∧
    async_get_response_hex (fun _ => some 0) 0 [⟨200, "zz"⟩] =
      some (.error .HexToBytes) ∧
    get_response_hex (fun _ => (none : Option Nat)) 0 [⟨200, "00"⟩] =
      some (.value (.error .BitcoinEncoding)) ∧
    async_get_response_hex (fun _ => (none : Option Nat)) 0 [⟨200, "00"⟩] =
      some (.error .BitcoinEncoding) := by
  decide

/-! ## C6: the optional get and its non-optional layer -/

/-- C6: a `404` settles the retry loop immediately (no delay — `404` is
not retryable) and `get_tx` returns `Ok(None)`; any other non-success,
non-retryable status returns `HttpResponseError{status, message: body}`;
and `get_tx_no_opt` converts `Ok(None)` into
`Err(TransactionNotFound(txid))`, passes `Ok(Some tx)` through as
`Ok(tx)`, and propagates any other error unchanged. -/
theorem optional_get_spec :
    (∀ (T : Type) (dec : List Nat → Option T) (m : Nat) (b : String)
        (rest : List HttpResp),
      get_with_retry m (⟨404, b⟩ :: rest) = some (⟨404, b⟩, []) ∧
      get_tx dec m (⟨404, b⟩ :: rest) = some (.ok none)) ∧
    (∀ (T : Type) (dec : List Nat → Option T) (m : Nat) (r : HttpResp)
        (rest : List HttpResp),
      is_status_retryable r.status = false → r.status ≠ 404 →
      r.status ≠ 200 →
      get_tx dec m (r :: rest) =
        some (.error (.HttpResponse r.status r.body))) ∧
    (∀ (T : Type) (dec : List Nat → Option T) (txid : String) (m : Nat)
        (resps : List HttpResp) (t : T),
      get_tx dec m resps = some (.ok (some t)) →
      get_tx_no_opt dec txid m resps = some (.ok t)) ∧
    (∀ (T : Type) (dec : List Nat → Option T) (txid : String) (m : Nat)
        (resps : List HttpResp),
      get_tx dec m resps = some (.ok none) →
      get_tx_no_opt dec txid m resps =
        some (.error (.TransactionNotFound txid))) ∧
    (∀ (T : Type) (dec : List Nat → Option T) (txid : String) (m : Nat)
        (resps : List HttpResp) (e : Error),
      get_tx dec m resps = some (.error e) →
      get_tx_no_opt dec txid m resps = some (.error e)) := by
  refine ⟨?_, ?_, ?_, ?_, ?_⟩
  · intro T dec m b rest
    have hret : get_with_retry m (⟨404, b⟩ :: rest) = some (⟨404, b⟩, []) := by
      rw [get_with_retry, getWithRetryAux,
        if_neg (by simp [is_status_retryable, RETRYABLE_ERROR_CODES])]
    refine ⟨hret, ?_⟩
    simp [get_tx, get_opt_response, hret, is_status_not_found]
  · intro T dec m r rest hnr h404 h200
    have hret : get_with_retry m (r :: rest) = some (r, []) := by
      rw [get_with_retry, getWithRetryAux, if_neg (by simp [hnr])]
    simp [get_tx, get_opt_response, hret, is_status_not_found,
      is_status_ok, h404, h200]
  · intro T dec txid m resps t h
    simp [get_tx_no_opt, get_tx] at h ⊢
    simp [h]
  · intro T dec txid m resps h
    simp [get_tx_no_opt, get_tx] at h ⊢
    simp [h]
  · intro T dec txid m resps e h
    simp [get_tx_no_opt, get_tx] at h ⊢
    simp [h]

/-- C6 witness: the parts of `optional_get_spec` at concrete inputs: a
`404` yields `Ok(None)` with no delay, a `403` yields the HTTP error, and
`get_tx_no_opt` maps the three `get_tx` outcomes as described. -/
theorem optional_get_spec_witness :
    get_tx (fun _ => some 0) 6 [⟨404, "nf"⟩] = some (.ok none) ∧
    get_tx (fun _ => some 0) 6 [⟨403, "denied"⟩] =
      some (.error (.HttpResponse 403 "denied")) ∧
    get_tx_no_opt (fun _ => some 0) "tx0" 6 [⟨200, "00"⟩] =
      some (.ok 0) ∧
    get_tx_no_opt (fun _ => some 0) "tx0" 6 [⟨404, "nf"⟩] =
      some (.error (.TransactionNotFound "tx0")) ∧
    get_tx_no_opt (fun _ => some 0) "tx0" 6 [⟨403, "denied"⟩] =
      some (.error (.HttpResponse 403 "denied")) := by
  refine ⟨((optional_get_spec.1 Nat (fun _ => some 0) 6 "nf" []).2 :),
    optional_get_spec.2.1 Nat (fun _ => some 0) 6 ⟨403, "denied"⟩ []
      (by decide) (by decide) (by decide),
    optional_get_spec.2.2.1 Nat (fun _ => some 0) "tx0" 6 [⟨200, "00"⟩] 0
      (by decide),
    optional_get_spec.2.2.2.1 Nat (fun _ => some 0) "tx0" 6 [⟨404, "nf"⟩]
      (by decide),
    optional_get_spec.2.2.2.2 Nat (fun _ => some 0) "tx0" 6
      [⟨403, "denied"⟩] (.HttpResponse 403 "denied") (by decide)⟩

/-! ## C7: versioned waterfalls query construction -/

/-- C7 (counterexample): the `utxo_only` flag does NOT appear only when
true: `waterfalls_version` always pushes `("utxo_only",
utxo_only.to_string())`, so with `utxo_only = false` the query string
contains `utxo_only=false`. -/
theorem waterfalls_version_counterexample :
    ("utxo_only", "false") ∈
      waterfalls_version_params "desc" none none false ∧
    queryString (waterfalls_version_params "desc" none none false) =
      "?descriptor=desc&utxo_only=false" := by
  decide

/-- C7 (amended): the `page` and `to_index` keys appear in the query
parameters iff the corresponding argument is `Some`; the `utxo_only` key
ALWAYS appears, with value `"true"` or `"false"`; and the stated scenario
holds: `page = Some 1`, `to_index = None`, `utxo_only = true` yields the
path `/v2/waterfalls` and exactly the query string
`?descriptor=<enc>&utxo_only=true&page=1`, with no `to_index` key. -/
theorem waterfalls_version_query :
    (∀ (d : String) (page to_index : Option Nat) (u : Bool),
      ((waterfalls_version_params d page to_index u).map
        Prod.fst).contains "page" = page.isSome ∧
      ((waterfalls_version_params d page to_index u).map
        Prod.fst).contains "to_index" = to_index.isSome ∧
      ("utxo_only", if u then "true" else "false") ∈
        waterfalls_version_params d page to_index u) ∧
    waterfalls_version_path 2 = "/v2/waterfalls" ∧
    (∀ d : String,
      queryString (waterfalls_version_params d (some 1) none true) =
        "?descriptor=" ++ urlencode d ++ "&utxo_only=true&page=1" ∧
      "to_index" ∉
        (waterfalls_version_params d (some 1) none true).map Prod.fst) := by
  refine ⟨?_, by decide, ?_⟩
  · intro d page to_index u
    cases page <;> cases to_index <;> cases u <;>
      simp [waterfalls_version_params]
  · intro d
    constructor
    · have e1 : urlencode "descriptor" = "descriptor" := by decide
      have e2 : urlencode "utxo_only" = "utxo_only" := by decide
      have e3 : urlencode "true" = "true" := by decide
      have e4 : urlencode "page" = "page" := by decide
      have e5 : urlencode "1" = "1" := by decide
      apply String.ext
      simp only [waterfalls_version_params, List.cons_append,
        List.nil_append, queryString, List.isEmpty_cons, Bool.false_eq_true,
        if_false, joinParams, encodeParam, e1, e2, e3, e4, e5,
        String.data_append,
        show ("?" : String).data = ['?'] from rfl,
        show ("descriptor" : String).data =
          ['d', 'e', 's', 'c', 'r', 'i', 'p', 't', 'o', 'r'] from rfl,
        show ("=" : String).data = ['='] from rfl,
        show ("&" : String).data = ['&'] from rfl,
        show ("utxo_only" : String).data =
          ['u', 't', 'x', 'o', '_', 'o', 'n', 'l', 'y'] from rfl,
        show ("true" : String).data = ['t', 'r', 'u', 'e'] from rfl,
        show ("page" : String).data = ['p', 'a', 'g', 'e'] from rfl,
        show ("1" : String).data = ['1'] from rfl,
        show ("?descriptor=" : String).data =
          ['?', 'd', 'e', 's', 'c', 'r', 'i', 'p', 't', 'o', 'r', '=']
          from rfl,
        show ("&utxo_only=true&page=1" : String).data =
          ['&', 'u', 't', 'x', 'o', '_', 'o', 'n', 'l', 'y', '=', 't',
            'r', 'u', 'e', '&', 'p', 'a', 'g', 'e', '=', '1'] from rfl,
        List.append_assoc, List.cons_append, List.nil_append, if_true,
        show toString (1 : Nat) = "1" from rfl]
    · simp [waterfalls_version_params]

/-- C7 witness: the scenario equality at the concrete descriptor
`"abc"`. -/
theorem waterfalls_version_query_witness :
    queryString (waterfalls_version_params "abc" (some 1) none true) =
      "?descriptor=abc&utxo_only=true&page=1" := by
  have h := (waterfalls_version_query.2.2 "abc").1
  rw [h]
  decide

/-! ## C8: key/page ordering of the decoded waterfall map -/

theorem charsLt_trans : ∀ {a b c : List Char},
    charsLt a b = true → charsLt b c = true → charsLt a c = true := by
  intro a
  induction a with
  | nil =>
    intro b c hab hbc
    cases b with
    | nil => simp [charsLt] at hab
    | cons y ys =>
      cases c with
      | nil => simp [charsLt] at hbc
      | cons z zs => simp [charsLt]
  | cons x xs ih =>
    intro b c hab hbc
    cases b with
    | nil => simp [charsLt] at hab
    | cons y ys =>
      cases c with
      | nil => simp [charsLt] at hbc
      | cons z zs =>
        simp only [charsLt] at hab hbc ⊢
        split_ifs at hab hbc ⊢ <;>
          first
          | rfl
          | omega
          | (exact ih hab hbc)
          | simp_all

theorem charsLt_eq_of_not : ∀ {a b : List Char},
    charsLt a b = false → charsLt b a = false → a = b := by
  intro a
  induction a with
  | nil =>
    intro b hab _
    cases b with
    | nil => rfl
    | cons y ys => simp [charsLt] at hab
  | cons x xs ih =>
    intro b hab hba
    cases b with
    | nil => simp [charsLt] at hba
    | cons y ys =>
      simp only [charsLt] at hab hba
      split_ifs at hab hba <;> try simp_all
      rename_i h1 h2
      have h3 : x.toNat = y.toNat := le_antisymm h2 h1
      have hxy : x = y :=
        Char.eq_of_val_eq (UInt32.eq_of_val_eq (Fin.ext h3))
      exact ⟨hxy, ih hab hba⟩

theorem strLt_trans {a b c : String} (h1 : strLt a b = true)
    (h2 : strLt b c = true) : strLt a c = true :=
  charsLt_trans h1 h2

theorem strLt_eq_of_not {a b : String} (h1 : strLt a b = false)
    (h2 : strLt b a = false) : a = b :=
  String.ext (charsLt_eq_of_not h1 h2)

theorem mem_btreeInsert {α : Type} {kv : String × α} {k : String} {v : α} :
    ∀ {m : List (String × α)},
      kv ∈ btreeInsert k v m → kv = (k, v) ∨ kv ∈ m := by
  intro m
  induction m with
  | nil => intro h; simpa [btreeInsert] using h
  | cons p rest ih =>
    obtain ⟨k', v'⟩ := p
    intro h
    simp only [btreeInsert] at h
    split_ifs at h with h1 h2
    · rcases List.mem_cons.mp h with h3 | h3
      · exact Or.inl h3
      · exact Or.inr h3
    · rcases List.mem_cons.mp h with h3 | h3
      · exact Or.inl h3
      · exact Or.inr (List.mem_cons_of_mem _ h3)
    · rcases List.mem_cons.mp h with h3 | h3
      · exact Or.inr (h3 ▸ List.mem_cons_self _ _)
      · rcases ih h3 with h4 | h4
        · exact Or.inl h4
        · exact Or.inr (List.mem_cons_of_mem _ h4)

theorem self_mem_keys_btreeInsert {α : Type} (k : String) (v : α) :
    ∀ m : List (String × α), k ∈ (btreeInsert k v m).map Prod.fst := by
  intro m
  induction m with
  | nil => simp [btreeInsert]
  | cons p rest ih =>
    obtain ⟨k', v'⟩ := p
    simp only [btreeInsert]
    split_ifs with h1 h2 <;> simp [ih]

theorem keys_btreeInsert_mono {α : Type} {a k : String} {v : α} :
    ∀ {m : List (String × α)}, a ∈ m.map Prod.fst →
      a ∈ (btreeInsert k v m).map Prod.fst := by
  intro m
  induction m with
  | nil => intro h; simp at h
  | cons p rest ih =>
    obtain ⟨k', v'⟩ := p
    intro h
    simp only [List.map_cons, List.mem_cons] at h
    simp only [btreeInsert]
    split_ifs with h1 h2
    · simp only [List.map_cons, List.mem_cons]
      tauto
    · subst h2
      simp only [List.map_cons, List.mem_cons]
      tauto
    · simp only [List.map_cons, List.mem_cons]
      rcases h with h3 | h3
      · exact Or.inl h3
      · exact Or.inr (ih h3)

theorem keys_mem_btreeInsert {α : Type} {a k : String} {v : α} :
    ∀ {m : List (String × α)}, a ∈ (btreeInsert k v m).map Prod.fst →
      a = k ∨ a ∈ m.map Prod.fst := by
  intro m h
  rcases List.mem_map.mp h with ⟨kv, hmem, hfst⟩
  rcases mem_btreeInsert hmem with h1 | h1
  · left
    rw [← hfst, h1]
  · right
    exact hfst ▸ List.mem_map_of_mem Prod.fst h1

theorem sorted_keys_btreeInsert {α : Type} {k : String} {v : α} :
    ∀ {m : List (String × α)},
      (m.map Prod.fst).Pairwise (fun a b => strLt a b = true) →
      ((btreeInsert k v m).map Prod.fst).Pairwise
        (fun a b => strLt a b = true) := by
  intro m
  induction m with
  | nil => intro _; simp [btreeInsert]
  | cons p rest ih =>
    obtain ⟨k', v'⟩ := p
    intro hs
    simp only [List.map_cons, List.pairwise_cons] at hs
    obtain ⟨hhead, htail⟩ := hs
    simp only [btreeInsert]
    split_ifs with h1 h2
    · simp only [List.map_cons, List.pairwise_cons]
      refine ⟨?_, hhead, htail⟩
      intro a ha
      rcases List.mem_cons.mp ha with h3 | h3
      · exact h3 ▸ h1
      · exact strLt_trans h1 (hhead a h3)
    · subst h2
      simp only [List.map_cons, List.pairwise_cons]
      exact ⟨hhead, htail⟩
    · have hgt : strLt k' k = true := by
        cases hkk : strLt k' k
        · exact absurd (strLt_eq_of_not (by simpa using h1) hkk) h2
        · rfl
      simp only [List.map_cons, List.pairwise_cons]
      refine ⟨?_, ih htail⟩
      intro a ha
      rcases keys_mem_btreeInsert ha with h3 | h3
      · exact h3 ▸ hgt
      · exact hhead a h3

theorem foldl_btree_entries {α : Type} :
    ∀ (l acc : List (String × α)) (kv : String × α),
      kv ∈ l.foldl (fun a p => btreeInsert p.1 p.2 a) acc →
      kv ∈ acc ∨ kv ∈ l := by
  intro l
  induction l with
  | nil =>
    intro acc kv h
    exact Or.inl h
  | cons p rest ih =>
    intro acc kv h
    simp only [List.foldl_cons] at h
    rcases ih _ kv h with h1 | h1
    · rcases mem_btreeInsert h1 with h2 | h2
      · exact Or.inr (by simp [h2])
      · exact Or.inl h2
    · exact Or.inr (List.mem_cons_of_mem _ h1)

theorem foldl_btree_sorted {α : Type} :
    ∀ (l acc : List (String × α)),
      (acc.map Prod.fst).Pairwise (fun a b => strLt a b = true) →
      (((l.foldl (fun a p => btreeInsert p.1 p.2 a) acc).map
        Prod.fst).Pairwise (fun a b => strLt a b = true)) := by
  intro l
  induction l with
  | nil => intro acc h; exact h
  | cons p rest ih =>
    intro acc h
    simp only [List.foldl_cons]
    exact ih _ (sorted_keys_btreeInsert h)

theorem foldl_btree_keys_mono {α : Type} :
    ∀ (l acc : List (String × α)) (a : String), a ∈ acc.map Prod.fst →
      a ∈ (l.foldl (fun a p => btreeInsert p.1 p.2 a) acc).map Prod.fst := by
  intro l
  induction l with
  | nil => intro acc a h; exact h
  | cons p rest ih =>
    intro acc a h
    simp only [List.foldl_cons]
    exact ih _ a (keys_btreeInsert_mono h)

theorem foldl_btree_keys_of_mem {α : Type} :
    ∀ (l acc : List (String × α)) (kv : String × α), kv ∈ l →
      kv.1 ∈ (l.foldl (fun a p => btreeInsert p.1 p.2 a) acc).map
        Prod.fst := by
  intro l
  induction l with
  | nil =>
    intro acc kv h
    simp at h
  | cons p rest ih =>
    intro acc kv h
    simp only [List.foldl_cons]
    rcases List.mem_cons.mp h with h1 | h1
    · subst h1
      exact foldl_btree_keys_mono rest _ kv.1
        (self_mem_keys_btreeInsert kv.1 kv.2 acc)
    · exact ih _ kv h1

/-- C8 (counterexample): the decoded key-to-pages mapping is a `BTreeMap`,
which iterates in sorted key order, NOT in the order the keys appeared in
the wire object: the wire order `["b", "a"]` decodes to iteration order
`["a", "b"]`. -/
theorem waterfall_order_counterexample :
    (btreeOfList
      [("b", ([[]] : List (List TxSeen))), ("a", [])]).map Prod.fst =
      ["a", "b"] ∧
    ([("b", ([[]] : List (List TxSeen))), ("a", [])]).map Prod.fst =
      ["b", "a"] ∧
    (["a", "b"] : List String) ≠ ["b", "a"] := by
  refine ⟨by decide, by decide, by decide⟩

/-- C8 (amended): decoding a waterfall response yields the keys in sorted
(byte-wise lexicographic) order regardless of wire order; every decoded
entry is literally one of the received wire entries (so the pages of each
key, and the `SeenTransaction`s within each page, keep exactly their
received order and content); and every received key is present in the
decoded mapping. -/
theorem waterfall_order :
    ∀ wire : List (String × List (List TxSeen)),
      ((btreeOfList wire).map Prod.fst).Pairwise
        (fun a b => strLt a b = true) ∧
      (∀ kv ∈ btreeOfList wire, kv ∈ wire) ∧
      (∀ kv ∈ wire, kv.1 ∈ (btreeOfList wire).map Prod.fst) := by
  intro wire
  refine ⟨foldl_btree_sorted wire [] (by simp), ?_, ?_⟩
  · intro kv h
    rcases foldl_btree_entries wire [] kv h with h1 | h1
    · simp at h1
    · exact h1
  · intro kv h
    exact foldl_btree_keys_of_mem wire [] kv h

/-- C8 witness: the amended ordering facts at the two-key wire object
`[("b", [[]]), ("a", [])]`. -/
theorem waterfall_order_witness :
    ((btreeOfList
      [("b", ([[]] : List (List TxSeen))), ("a", [])]).map
        Prod.fst).Pairwise (fun a b => strLt a b = true) ∧
    ("b", ([[]] : List (List TxSeen))) ∈
      [("b", ([[]] : List (List TxSeen))), ("a", [])] := by
  have h := waterfall_order [("b", ([[]] : List (List TxSeen))), ("a", [])]
  refine ⟨h.1, ?_⟩
  exact h.2.1 ("b", [[]]) (by decide)

/-! ## C9: `WaterfallResponse::is_empty` -/

/-- A concrete `SeenTransaction` for the non-empty example. -/
def sampleTx : TxSeen := ⟨"00", 100, none, none, V.Undefined⟩

/-- C9: `is_empty` is true iff every page, under every key, has zero
elements; in particular an empty key mapping is empty, a single key
mapping to `[[]]` is empty, and any key with a page containing a
`SeenTransaction` is non-empty. -/
theorem is_empty_spec :
    (∀ r : WaterfallResponse,
      r.is_empty = true ↔
        ∀ kv ∈ r.txs_seen, ∀ pg ∈ kv.2, pg = ([] : List TxSeen)) ∧
    WaterfallResponse.is_empty ⟨[], 0, none, none⟩ = true ∧
    WaterfallResponse.is_empty ⟨[("key1", [[]])], 0, none, none⟩ = true ∧
    WaterfallResponse.is_empty
      ⟨[("key1", [[sampleTx]])], 0, none, none⟩ = false := by
  refine ⟨?_, by decide, by decide, by decide⟩
  intro r
  simp only [WaterfallResponse.is_empty, List.all_eq_true,
    List.mem_flatMap, List.isEmpty_iff, forall_exists_index, and_imp]
  constructor
  · intro h kv hkv pg hpg
    exact h pg kv hkv hpg
  · intro h pg kv hkv hpg
    exact h kv hkv pg hpg

/-- C9 witness: the iff applied at a concrete two-page response. -/
theorem is_empty_spec_witness :
    WaterfallResponse.is_empty ⟨[("k", [[], []])], 7, none, none⟩ = true :=
  (is_empty_spec.1 ⟨[("k", [[], []])], 7, none, none⟩).mpr (by decide)

/-! ## C10: the `v` field's wire presence and default -/

theorem asU32_natCast {n : Nat} (h : n < 2 ^ 32) :
    asU32 (Jval.jnum n) = some n := by
  show (if n < 4294967296 then some n else none) = some n
  rw [if_pos (by omega)]

/-- C10: serializing a `TxSeen` omits the `"v"` key exactly when its
`OutputReference` is `Undefined`; deserializing an object that lacks a
`"v"` key yields the `Default` value `Undefined`; hence a `TxSeen` with
`v = Undefined` (and `u32`-ranged numeric fields) round-trips through JSON
to an equal value even though the field is absent on the wire. -/
theorem txseen_v_default :
    (∀ ts : TxSeen, ts.v = V.Undefined → ts.height < 2 ^ 32 →
      (∀ t ∈ ts.block_timestamp, t < 2 ^ 32) →
      jLookup "v" (serializeTxSeen ts) = none ∧
      deserializeTxSeen (serializeTxSeen ts) = some ts) ∧
    (∀ (fields : List (String × Jval)) (ts : TxSeen),
      jLookup "v" fields = none → deserializeTxSeen fields = some ts →
      ts.v = V.Undefined) := by
  constructor
  · intro ts hv hh ht
    obtain ⟨txid, height, bh, bt, v⟩ := ts
    simp only at hv hh ht
    subst hv
    cases bh with
    | none =>
      cases bt with
      | none =>
        constructor <;>
          simp [serializeTxSeen, deserializeTxSeen, jLookup,
            V.is_undefined, asStr, optField, vField, asU32_natCast hh]
      | some t =>
        have ht' : t < 2 ^ 32 := ht t (by simp)
        constructor <;>
          simp [serializeTxSeen, deserializeTxSeen, jLookup,
            V.is_undefined, asStr, optField, vField, asU32_natCast hh,
            asU32_natCast ht']
    | some hsh =>
      cases bt with
      | none =>
        constructor <;>
          simp [serializeTxSeen, deserializeTxSeen, jLookup,
            V.is_undefined, asStr, optField, vField, asU32_natCast hh]
      | some t =>
        have ht' : t < 2 ^ 32 := ht t (by simp)
        constructor <;>
          simp [serializeTxSeen, deserializeTxSeen, jLookup,
            V.is_undefined, asStr, optField, vField, asU32_natCast hh,
            asU32_natCast ht']
  · intro fields ts hv hdes
    simp only [deserializeTxSeen, hv, vField, Option.bind_eq_some,
      Option.some.injEq] at hdes
    obtain ⟨txid0, htx, hdes⟩ := hdes
    obtain ⟨height0, hht, hdes⟩ := hdes
    obtain ⟨bh0, hbh, hdes⟩ := hdes
    obtain ⟨bt0, hbt, hdes⟩ := hdes
    obtain ⟨v0, hv0, hdes⟩ := hdes
    rw [← hdes, ← hv0]

/-- C10 witness: the round-trip at a concrete `TxSeen` with
`v = Undefined`. -/
theorem txseen_v_default_witness :
    jLookup "v" (serializeTxSeen ⟨"ab", 5, none, none, V.Undefined⟩) =
      none ∧
    deserializeTxSeen (serializeTxSeen ⟨"ab", 5, none, none,
      V.Undefined⟩) = some ⟨"ab", 5, none, none, V.Undefined⟩ :=
  txseen_v_default.1 ⟨"ab", 5, none, none, V.Undefined⟩ rfl (by decide)
    (by simp)

end Waterfalls
